import Mathlib

/-!
Verification development for the LLSD serialization library (Rust sources
`src/lib.rs`, `src/binary.rs`, `src/xml.rs`).

The Rust code is shallowly embedded: byte buffers are `List Nat` (each entry a
byte value `< 256`), strings are byte lists (Rust `String` holds UTF-8 bytes),
XML text is a list of Unicode code points, machine integers are `Int`/`Nat`
with explicit two's-complement conversion, and `f64` values are carried as
their raw 64-bit pattern (a `Nat < 2^64`), exactly as the binary codec treats
them.  Fallible Rust functions returning `Result` become `Except`.

Recursive parsers are given explicit fuel; every recursive call decreases the
fuel by one and the entry points supply `2 * input length + 4`, which is ample
because each parsing step consumes input.  Fuel exhaustion is a distinguished
error that the theorems show is not reached on the inputs they speak about.
-/

namespace LLSD

/-! ## Little-endian fixed-width encodings (`to_le_bytes` / `from_le_bytes`) -/

/-- `u32::to_le_bytes` on the low 32 bits of `n` (Rust `as u32` truncates). -/
def leBytes4 (n : Nat) : List Nat :=
  [n % 256, n / 256 % 256, n / 65536 % 256, n / 16777216 % 256]

/-- `u64::to_le_bytes` on the low 64 bits of `n`. -/
def leBytes8 (n : Nat) : List Nat :=
  [n % 256, n / 256 % 256, n / 65536 % 256, n / 16777216 % 256,
   n / 4294967296 % 256, n / 1099511627776 % 256,
   n / 281474976710656 % 256, n / 72057594037927936 % 256]

/-- Reassemble four little-endian bytes (`u32::from_le_bytes`). -/
def asm4 : List Nat → Nat
  | [a, b, c, d] => a + 256 * b + 65536 * c + 16777216 * d
  | _ => 0

/-- Reassemble eight little-endian bytes (`u64::from_le_bytes`). -/
def asm8 : List Nat → Nat
  | [a, b, c, d, e, f, g, h] =>
      a + 256 * b + 65536 * c + 16777216 * d + 4294967296 * e +
      1099511627776 * f + 281474976710656 * g + 72057594037927936 * h
  | _ => 0

/-- Two's-complement 32-bit pattern of an `i32` (`i32::to_le_bytes` writes
the bytes of this value). -/
def toU32 (n : Int) : Nat := (n % (2 ^ 32 : Int)).toNat

/-- Interpret a 32-bit pattern as an `i32` (`i32::from_le_bytes`). -/
def fromU32 (m : Nat) : Int := if m < 2 ^ 31 then (m : Int) else (m : Int) - 2 ^ 32

/-- Two's-complement 64-bit pattern of an `i64`. -/
def toU64 (n : Int) : Nat := (n % (2 ^ 64 : Int)).toNat

/-- Interpret a 64-bit pattern as an `i64` (`i64::from_le_bytes`). -/
def fromU64 (m : Nat) : Int := if m < 2 ^ 63 then (m : Int) else (m : Int) - 2 ^ 64

/-! ## The value model (`LLSDValue` in `src/lib.rs`)

`String`, `URI` and map keys carry the UTF-8 bytes of the Rust `String`;
`Real` carries the raw IEEE-754 bit pattern; `UUID` its 16 bytes. -/

inductive LLSDValue where
  | undefined : LLSDValue
  | boolean : Bool → LLSDValue
  | real : Nat → LLSDValue
  | integer : Int → LLSDValue
  | uuid : List Nat → LLSDValue
  | string : List Nat → LLSDValue
  | date : Int → LLSDValue
  | uri : List Nat → LLSDValue
  | binary : List Nat → LLSDValue
  | map : List (List Nat × LLSDValue) → LLSDValue
  | array : List LLSDValue → LLSDValue

/-- `HashMap::insert`: replace the value when the key is present, otherwise
add the entry. -/
def insertA (m : List (List Nat × LLSDValue)) (k : List Nat) (v : LLSDValue) :
    List (List Nat × LLSDValue) :=
  match m with
  | [] => [(k, v)]
  | (k', v') :: t => if k' = k then (k, v) :: t else (k', v') :: insertA t k v

/-- Accumulate map entries in input order with `insertA` (the decode loops'
`dict.insert(key, value)`). -/
def foldIns (d : List (List Nat × LLSDValue)) :
    List (List Nat × LLSDValue) → List (List Nat × LLSDValue)
  | [] => d
  | (k, v) :: t => foldIns (insertA d k v) t

/-! ## UTF-8 (`std::str::from_utf8` validation and `str::chars`)

`utf8decodeChar` accepts exactly the well-formed sequences Rust's validator
accepts: no overlong forms, no surrogates, nothing above U+10FFFF. -/

/-- Continuation byte test. -/
def cont (b : Nat) : Bool := 128 ≤ b && b < 192

/-- Lower bound for the second byte of a three-byte sequence. -/
def lo3 (b0 : Nat) : Nat := if b0 = 224 then 160 else 128

/-- Upper bound (exclusive) for the second byte of a three-byte sequence. -/
def hi3 (b0 : Nat) : Nat := if b0 = 237 then 160 else 192

/-- Lower bound for the second byte of a four-byte sequence. -/
def lo4 (b0 : Nat) : Nat := if b0 = 240 then 144 else 128

/-- Upper bound (exclusive) for the second byte of a four-byte sequence. -/
def hi4 (b0 : Nat) : Nat := if b0 = 244 then 144 else 192

/-- Encode one Unicode scalar value as UTF-8 bytes. -/
def utf8encodeChar (c : Nat) : List Nat :=
  if c < 128 then [c]
  else if c < 2048 then [192 + c / 64, 128 + c % 64]
  else if c < 65536 then [224 + c / 4096, 128 + c / 64 % 64, 128 + c % 64]
  else [240 + c / 262144, 128 + c / 4096 % 64, 128 + c / 64 % 64, 128 + c % 64]

/-- Encode a list of Unicode scalar values as UTF-8 bytes. -/
def utf8encode : List Nat → List Nat
  | [] => []
  | c :: cs => utf8encodeChar c ++ utf8encode cs

/-- Decode the tail of a two-byte UTF-8 sequence. -/
def utf8dec2 (b0 : Nat) : List Nat → Option (Nat × List Nat)
  | b1 :: r1 => if cont b1 then some ((b0 - 192) * 64 + (b1 - 128), r1) else none
  | _ => none

/-- Decode the tail of a three-byte UTF-8 sequence. -/
def utf8dec3 (b0 : Nat) : List Nat → Option (Nat × List Nat)
  | b1 :: b2 :: r2 =>
    if lo3 b0 ≤ b1 && b1 < hi3 b0 && cont b2 then
      some ((b0 - 224) * 4096 + (b1 - 128) * 64 + (b2 - 128), r2)
    else none
  | _ => none

/-- Decode the tail of a four-byte UTF-8 sequence. -/
def utf8dec4 (b0 : Nat) : List Nat → Option (Nat × List Nat)
  | b1 :: b2 :: b3 :: r3 =>
    if lo4 b0 ≤ b1 && b1 < hi4 b0 && cont b2 && cont b3 then
      some ((b0 - 240) * 262144 + (b1 - 128) * 4096 + (b2 - 128) * 64 + (b3 - 128), r3)
    else none
  | _ => none

/-- Decode one UTF-8 character from the front of a byte list, rejecting
overlong encodings, surrogates, and values above U+10FFFF, as Rust's
`from_utf8` does. -/
def utf8decodeChar : List Nat → Option (Nat × List Nat)
  | [] => none
  | b0 :: r =>
    if b0 < 128 then some (b0, r)
    else if b0 < 194 then none
    else if b0 < 224 then utf8dec2 b0 r
    else if b0 < 240 then utf8dec3 b0 r
    else if b0 < 245 then utf8dec4 b0 r
    else none

/-- Fuel-driven UTF-8 decode loop; the entry point supplies more fuel than
the byte count, and each character consumes at least one byte, so the
fuel-exhaustion branch is unreachable from `utf8decode`. -/
def utf8decodeAux : Nat → List Nat → Option (List Nat)
  | _, [] => some []
  | 0, _ :: _ => none
  | f + 1, b0 :: r =>
    match utf8decodeChar (b0 :: r) with
    | some (c, rest) =>
      match utf8decodeAux f rest with
      | some cs => some (c :: cs)
      | none => none
    | none => none

/-- `std::str::from_utf8` converted to the sequence of code points
(`str::chars`); `none` on invalid UTF-8. -/
def utf8decode (bs : List Nat) : Option (List Nat) :=
  utf8decodeAux (bs.length + 1) bs

/-! ## Binary codec (`src/binary.rs`) -/

/-- ASCII bytes (= code points) of a string literal. -/
def strBytes (s : String) : List Nat := s.toList.map Char.toNat

/-- `LLSDBINARYPREFIX` in `src/binary.rs`: the fixed header written by
`to_bytes` and demanded by `binary::parse`. -/
def llsdBinaryHeader : List Nat := strBytes "<? LLSD/Binary ?>\x0a"

/-- Binary decode errors (`anyhow::Error` values distinguished by site). -/
inductive BErr where
  | fuelOut : BErr
  | truncated : BErr
  | badHeader : BErr
  | unknownTag : BErr
  | invalidUtf8 : BErr
  | badMapEnd : BErr
  | badArrayEnd : BErr

/-- `read_exact` into a 1-byte buffer (`read_u8`). -/
def readU8 : List Nat → Except BErr (Nat × List Nat)
  | [] => .error .truncated
  | b :: r => .ok (b, r)

/-- `read_exact` into an `n`-byte buffer: error when fewer bytes remain. -/
def readExact (n : Nat) (b : List Nat) : Except BErr (List Nat × List Nat) :=
  if n ≤ b.length then .ok (b.take n, b.drop n) else .error .truncated

/-- Plain `Cursor::read` into a zero-initialised `n`-byte buffer: a short
read leaves the tail of the buffer as zeros and reports no error. -/
def readPad (n : Nat) (b : List Nat) : List Nat × List Nat :=
  (b.take n ++ List.replicate (n - b.length) 0, b.drop n)

/-- `read_u32`: 4 bytes, `u32::from_le_bytes`. -/
def readU32 (b : List Nat) : Except BErr (Nat × List Nat) := do
  let (bs, r) ← readExact 4 b
  .ok (asm4 bs, r)

/-- `read_variable`: `read_u32` length, then a plain `read` of that many
bytes into a zero-filled buffer (`binary.rs` uses `read`, not
`read_exact`, here). -/
def readVariable (b : List Nat) : Except BErr (List Nat × List Nat) := do
  let (n, r) ← readU32 b
  .ok (readPad n r)

/-- `std::str::from_utf8` as a validity check that hands back the bytes. -/
def ensureUtf8 (bs : List Nat) : Except BErr (List Nat) :=
  match utf8decode bs with
  | some _ => .ok bs
  | none => .error .invalidUtf8

mutual

/-- `parse_value` in `src/binary.rs`: dispatch on the single type byte.
Tag bytes: `!` 33, `0` 48, `1` 49, `s` 115, `l` 108, `i` 105, `r` 114,
`u` 117, `b` 98, `d` 100, `{` 123, `[` 91. -/
def parse_value : Nat → List Nat → Except BErr (LLSDValue × List Nat)
  | 0, _ => .error .fuelOut
  | f + 1, b => do
    let (t, b1) ← readU8 b
    match t with
    | 33 => .ok (.undefined, b1)
    | 48 => .ok (.boolean false, b1)
    | 49 => .ok (.boolean true, b1)
    | 115 => do
      let (bs, b2) ← readVariable b1
      let _ ← ensureUtf8 bs
      .ok (.string bs, b2)
    | 108 => do
      let (bs, b2) ← readVariable b1
      let _ ← ensureUtf8 bs
      .ok (.uri bs, b2)
    | 105 => do
      let (bs, b2) ← readExact 4 b1
      .ok (.integer (fromU32 (asm4 bs)), b2)
    | 114 => do
      let (bs, b2) ← readExact 8 b1
      .ok (.real (asm8 bs), b2)
    | 117 =>
      let (bs, b2) := readPad 16 b1
      .ok (.uuid bs, b2)
    | 98 => do
      let (bs, b2) ← readVariable b1
      .ok (.binary bs, b2)
    | 100 => do
      let (bs, b2) ← readExact 8 b1
      .ok (.date (fromU64 (asm8 bs)), b2)
    | 123 => do
      let (n, b2) ← readU32 b1
      let (d, b3) ← parseEntries f n b2 []
      let (c, b4) ← readU8 b3
      if c = 125 then .ok (.map d, b4) else .error .badMapEnd
    | 91 => do
      let (n, b2) ← readU32 b1
      let (a, b3) ← parseItems f n b2 []
      let (c, b4) ← readU8 b3
      if c = 93 then .ok (.array a, b4) else .error .badArrayEnd
    | _ => .error .unknownTag

/-- The map-decoding loop: `count` iterations of key (`read_variable` +
UTF-8 check) then value, inserted with `dict.insert` semantics. -/
def parseEntries :
    Nat → Nat → List Nat → List (List Nat × LLSDValue) →
      Except BErr (List (List Nat × LLSDValue) × List Nat)
  | 0, _, _, _ => .error .fuelOut
  | _ + 1, 0, b, d => .ok (d, b)
  | f + 1, n + 1, b, d => do
    let (kbs, b1) ← readVariable b
    let _ ← ensureUtf8 kbs
    let (v, b2) ← parse_value f b1
    parseEntries f n b2 (insertA d kbs v)

/-- The array-decoding loop: `count` recursive `parse_value` calls pushed in
order. -/
def parseItems :
    Nat → Nat → List Nat → List LLSDValue →
      Except BErr (List LLSDValue × List Nat)
  | 0, _, _, _ => .error .fuelOut
  | _ + 1, 0, b, a => .ok (a, b)
  | f + 1, n + 1, b, a => do
    let (v, b1) ← parse_value f b
    parseItems f n b1 (a ++ [v])

end

/-- `binary::parse`: `read_exact` the header bytes, compare against
`LLSDBINARYPREFIX`, then parse one value (trailing bytes are ignored). -/
def binaryParse (b : List Nat) : Except BErr LLSDValue :=
  if llsdBinaryHeader.length ≤ b.length then
    if b.take llsdBinaryHeader.length = llsdBinaryHeader then
      match parse_value (2 * b.length + 4) (b.drop llsdBinaryHeader.length) with
      | .ok (v, _) => .ok v
      | .error e => .error e
    else .error .badHeader
  else .error .truncated

mutual

/-- `generate_value` in `src/binary.rs`: tag byte followed by the payload,
all fixed-width fields in little-endian order (`to_le_bytes`). -/
def generate_value : LLSDValue → List Nat
  | .undefined => [33]
  | .boolean true => [49]
  | .boolean false => [48]
  | .string bs => 115 :: (leBytes4 bs.length ++ bs)
  | .uri bs => 108 :: (leBytes4 bs.length ++ bs)
  | .integer n => 105 :: leBytes4 (toU32 n)
  | .real p => 114 :: leBytes8 p
  | .uuid bs => 117 :: bs
  | .binary bs => 98 :: (leBytes4 bs.length ++ bs)
  | .date n => 100 :: leBytes8 (toU64 n)
  | .map es => 123 :: (leBytes4 es.length ++ (genEntries es ++ [125]))
  | .array xs => 91 :: (leBytes4 xs.length ++ (genItems xs ++ [93]))

/-- Map body: per entry a length-prefixed key then the value (no key tag
byte). -/
def genEntries : List (List Nat × LLSDValue) → List Nat
  | [] => []
  | (k, v) :: t => leBytes4 k.length ++ k ++ generate_value v ++ genEntries t

/-- Array body: concatenated encoded elements. -/
def genItems : List LLSDValue → List Nat
  | [] => []
  | v :: t => generate_value v ++ genItems t

end

/-- `binary::to_bytes`: header then the value. -/
def to_bytes (v : LLSDValue) : List Nat := llsdBinaryHeader ++ generate_value v

/-! ## Well-formedness of constructible values

`wfValue` states exactly what a Rust `LLSDValue` guarantees by construction
(byte ranges, 16-byte UUIDs, valid-UTF-8 strings, unique `HashMap` keys,
in-range `i32`/`i64`, lengths below `2^32` as `usize → u32` requires) plus
the finite-real restriction the round-trip claims impose. -/

/-- Finite `f64`: the exponent field of the bit pattern is not all ones. -/
def isFiniteF64 (p : Nat) : Bool := decide (p / 2 ^ 52 % 2 ^ 11 ≠ 2047)

/-- Constraints a Rust `String` satisfies by construction. -/
def wfStr (bs : List Nat) : Bool :=
  decide (bs.length < 2 ^ 32) && (bs.all fun b => decide (b < 256)) &&
    (utf8decode bs).isSome

/-- Distinct keys, as a `HashMap`'s entry list has. -/
def keysNodup : List (List Nat × LLSDValue) → Bool
  | [] => true
  | (k, _) :: t => (t.all fun e => decide (e.1 ≠ k)) && keysNodup t

mutual

def wfValue : LLSDValue → Bool
  | .undefined => true
  | .boolean _ => true
  | .integer n => decide (-(2 ^ 31 : Int) ≤ n) && decide (n < 2 ^ 31)
  | .real p => decide (p < 2 ^ 64) && isFiniteF64 p
  | .uuid bs => decide (bs.length = 16) && (bs.all fun b => decide (b < 256))
  | .string bs => wfStr bs
  | .date n => decide (-(2 ^ 63 : Int) ≤ n) && decide (n < 2 ^ 63)
  | .uri bs => wfStr bs
  | .binary bs => decide (bs.length < 2 ^ 32) && (bs.all fun b => decide (b < 256))
  | .map es => decide (es.length < 2 ^ 32) && keysNodup es && wfEntries es
  | .array xs => decide (xs.length < 2 ^ 32) && wfItems xs

def wfEntries : List (List Nat × LLSDValue) → Bool
  | [] => true
  | (k, v) :: t => wfStr k && wfValue v && wfEntries t

def wfItems : List LLSDValue → Bool
  | [] => true
  | v :: t => wfValue v && wfItems t

end

/-! ## Fuel bounds -/

mutual

/-- Fuel sufficient for `parse_value` on the encoding of `v`. -/
def cost : LLSDValue → Nat
  | .map es => costEntries es + 1
  | .array xs => costItems xs + 1
  | _ => 1

def costEntries : List (List Nat × LLSDValue) → Nat
  | [] => 1
  | (_, v) :: t => 1 + max (cost v) (costEntries t)

def costItems : List LLSDValue → Nat
  | [] => 1
  | v :: t => 1 + max (cost v) (costItems t)

end

/-! ## XML codec (`src/xml.rs`)

The `quick_xml` pull reader is modelled by a tokenizer from code points to
events (`Start`/`End`/`Text`/`Comment`/`Decl`/other), configured as the code
configures it: `trim_text(true)` (text events trimmed, whitespace-only text
dropped), `expand_empty_elements(true)` (an empty element yields a paired
start+end), and the default end-name check (a close tag must match the open
tag on the reader's stack).  Text events carry the raw escaped text;
`unescape_and_decode` is applied by the parsing routines, as in the code. -/

/-- XML-side errors (`anyhow::Error`/`quick_xml::Error` by site). -/
inductive XErr where
  | fuelOut : XErr
  | tokenErr : XErr
  | expectedLLSD : XErr
  | moreThanOneRoot : XErr
  | noRoot : XErr
  | expectedData : XErr
  | unknownElement : XErr
  | tagMismatch : XErr
  | eofInValue : XErr
  | unexpectedEvent : XErr
  | expectedKeyFound : XErr
  | entryNoValue : XErr
  | unescapeErr : XErr
  | boolErr : XErr
  | intErr : XErr
  | realErr : XErr
  | uuidErr : XErr
  | dateErr : XErr
  | binErr : XErr
  | unimplemented : XErr
  | unreachable : XErr

/-- `quick_xml` reader events. -/
inductive XEvent where
  | startE : List Nat → List (List Nat × List Nat) → XEvent
  | endE : List Nat → XEvent
  | textE : List Nat → XEvent
  | commentE : List Nat → XEvent
  | declE : XEvent
  | otherE : XEvent

/-- ASCII whitespace (the subset of `char::is_whitespace` relevant here). -/
def isWs (c : Nat) : Bool := c = 32 || c = 9 || c = 10 || c = 13

/-- Trim both ends (`str::trim` / `trim_text`). -/
def trimChars (cs : List Nat) : List Nat :=
  ((cs.dropWhile isWs).reverse.dropWhile isWs).reverse

/-- The five standard entities resolved by the reader's unescaping. -/
def entityChar (ent : List Nat) : Option Nat :=
  if ent = strBytes "lt" then some 60
  else if ent = strBytes "gt" then some 62
  else if ent = strBytes "amp" then some 38
  else if ent = strBytes "apos" then some 39
  else if ent = strBytes "quot" then some 34
  else none

/-- `unescape_and_decode`: resolve `&...;` entities, error on malformed or
unknown ones. -/
def xmlUnescapeAux : Nat → List Nat → Except XErr (List Nat)
  | _, [] => .ok []
  | 0, _ :: _ => .error .fuelOut
  | f + 1, c :: rest =>
    if c = 38 then
      let ent := rest.takeWhile fun d => decide (d ≠ 59)
      match rest.dropWhile fun d => decide (d ≠ 59) with
      | 59 :: rest2 =>
        match entityChar ent with
        | some ch => do
          let t ← xmlUnescapeAux f rest2
          .ok (ch :: t)
        | none => .error .unescapeErr
      | _ => .error .unescapeErr
    else do
      let t ← xmlUnescapeAux f rest
      .ok (c :: t)

def xmlUnescape (cs : List Nat) : Except XErr (List Nat) :=
  xmlUnescapeAux (cs.length + 1) cs

/-- `str::parse::<bool>`: exactly `true` or `false`. -/
def parseRustBool (cs : List Nat) : Except XErr Bool :=
  if cs = strBytes "true" then .ok true
  else if cs = strBytes "false" then .ok false
  else .error .boolErr

/-- Decimal digits accumulator. -/
def digitsValAux : List Nat → Nat → Option Nat
  | [], acc => some acc
  | c :: t, acc =>
    if 48 ≤ c ∧ c ≤ 57 then digitsValAux t (acc * 10 + (c - 48)) else none

/-- `str::parse::<i32>`: optional sign, decimal digits, range check. -/
def parseI32Text (cs : List Nat) : Except XErr Int :=
  match cs with
  | 45 :: ds =>
    if ds = [] then .error .intErr
    else
      match digitsValAux ds 0 with
      | some n => if (n : Int) ≤ 2 ^ 31 then .ok (-(n : Int)) else .error .intErr
      | none => .error .intErr
  | 43 :: ds =>
    if ds = [] then .error .intErr
    else
      match digitsValAux ds 0 with
      | some n => if (n : Int) < 2 ^ 31 then .ok (n : Int) else .error .intErr
      | none => .error .intErr
  | ds =>
    if ds = [] then .error .intErr
    else
      match digitsValAux ds 0 with
      | some n => if (n : Int) < 2 ^ 31 then .ok (n : Int) else .error .intErr
      | none => .error .intErr

/-- ASCII lowercase (`str::to_lowercase` restricted to ASCII). -/
def toLowerAscii (cs : List Nat) : List Nat :=
  cs.map fun c => if 65 ≤ c ∧ c ≤ 90 then c + 32 else c

/-- Bit pattern of `f64::NAN`, what `"NaN".parse::<f64>()` yields. -/
def f64NaNPattern : Nat := 9221120237041090560

/-- Modelled from the spec: `str::parse::<f64>` is a standard-library
collaborator (spec section 6 treats numeric text parsing as an available
primitive); decimal floating-point conversion is not embedded, so this
abstraction reports an error.  No claim in this development depends on it. -/
def parseF64Text (_ : List Nat) : Except XErr Nat := .error .realErr

/-- Modelled from the spec: the `uuid` crate's `parse_str` collaborator; not
embedded, unused by the claims. -/
def uuidFromText (_ : List Nat) : Except XErr (List Nat) := .error .uuidErr

/-- Modelled from the spec: the `chrono` RFC-3339 parse collaborator
(`parse_date`); not embedded, unused by the claims. -/
def dateFromText (_ : List Nat) : Except XErr Int := .error .dateErr

/-- Modelled from the spec: the `base64` crate's decoder collaborator; not
embedded, unused by the claims. -/
def base64decodeX (_ : List Nat) : Except XErr (List Nat) := .error .binErr

/-- Modelled from the spec: the `hex` crate's decoder collaborator; not
embedded, unused by the claims. -/
def hexDecodeX (_ : List Nat) : Except XErr (List Nat) := .error .binErr

/-- Modelled from the spec: the `ascii85` crate's decoder collaborator; not
embedded, unused by the claims. -/
def ascii85decodeX (_ : List Nat) : Except XErr (List Nat) := .error .binErr

/-- `get_attr`: first attribute with the given name, value unescaped. -/
def getAttr (attrs : List (List Nat × List Nat)) (key : List Nat) :
    Except XErr (Option (List Nat)) :=
  match attrs with
  | [] => .ok none
  | (k, v) :: t =>
    if k = key then do
      let u ← xmlUnescape v
      .ok (some u)
    else getAttr t key

/-- `parse_binary` in `src/xml.rs`: dispatch on the `encoding` attribute,
defaulting to base64. -/
def parseXBinary (text : List Nat) (attrs : List (List Nat × List Nat)) :
    Except XErr (List Nat) := do
  let enc ← getAttr attrs (strBytes "encoding")
  let e := match enc with
    | some s => s
    | none => strBytes "base64"
  if e = strBytes "base64" then base64decodeX text
  else if e = strBytes "base16" then hexDecodeX text
  else if e = strBytes "base85" then ascii85decodeX text
  else .error .binErr

/-- `Vec::<String>::join(" ")`. -/
def joinSpace : List (List Nat) → List Nat
  | [] => []
  | [t] => t
  | t :: rest => t ++ 32 :: joinSpace rest

mutual

/-- `parse_value` in `src/xml.rs`: dispatch on the start-tag name.  Note the
primitive set includes `bool` (not `boolean`) and `null`, and `array` is
`Err("Unimplemented")` in the source. -/
def parseXValue :
    Nat → List Nat → List (List Nat × List Nat) → List XEvent →
      Except XErr (LLSDValue × List XEvent)
  | 0, _, _, _ => .error .fuelOut
  | f + 1, tag, attrs, evs =>
    if tag = strBytes "null" || tag = strBytes "real" || tag = strBytes "integer" ||
        tag = strBytes "bool" || tag = strBytes "string" || tag = strBytes "uri" ||
        tag = strBytes "binary" || tag = strBytes "uuid" || tag = strBytes "date" then
      parseXPrim f tag attrs evs []
    else if tag = strBytes "map" then parseXMap f evs []
    else if tag = strBytes "array" then .error .unimplemented
    else .error .unknownElement

/-- `parse_primitive_value`: accumulate unescaped text until the matching
end tag, then convert according to the tag.  `LLSDValue::Null` in the source
is the `Undefined` variant of the library's value enum. -/
def parseXPrim :
    Nat → List Nat → List (List Nat × List Nat) → List XEvent → List (List Nat) →
      Except XErr (LLSDValue × List XEvent)
  | 0, _, _, _, _ => .error .fuelOut
  | f + 1, tag, attrs, evs, texts =>
    match evs with
    | .textE t :: rest => do
      let u ← xmlUnescape t
      parseXPrim f tag attrs rest (texts ++ [u])
    | .endE name :: rest =>
      if name = tag then
        let text := joinSpace texts
        if tag = strBytes "null" then .ok (.undefined, rest)
        else if tag = strBytes "real" then
          if toLowerAscii text = strBytes "nan" then .ok (.real f64NaNPattern, rest)
          else do
            let p ← parseF64Text text
            .ok (.real p, rest)
        else if tag = strBytes "integer" then do
          let n ← parseI32Text text
          .ok (.integer n, rest)
        else if tag = strBytes "bool" then do
          let b ← parseRustBool text
          .ok (.boolean b, rest)
        else if tag = strBytes "string" then
          .ok (.string (utf8encode (trimChars text)), rest)
        else if tag = strBytes "uri" then
          .ok (.string (utf8encode (trimChars text)), rest)
        else if tag = strBytes "uuid" then do
          let u ← uuidFromText (trimChars text)
          .ok (.uuid u, rest)
        else if tag = strBytes "date" then do
          let d ← dateFromText text
          .ok (.date d, rest)
        else if tag = strBytes "binary" then do
          let bs ← parseXBinary text attrs
          .ok (.binary bs, rest)
        else .error .unknownElement
      else .error .tagMismatch
    | .commentE _ :: rest => parseXPrim f tag attrs rest texts
    | [] => .error .eofInValue
    | _ => .error .unexpectedEvent

/-- `parse_map`: repeated `key`-tagged entries, `HashMap::insert` per entry
(duplicates overwrite), until the closing `map` tag. -/
def parseXMap :
    Nat → List XEvent → List (List Nat × LLSDValue) →
      Except XErr (LLSDValue × List XEvent)
  | 0, _, _ => .error .fuelOut
  | f + 1, evs, m =>
    match evs with
    | .startE name _ :: rest =>
      if name = strBytes "key" then do
        let (kv, rest2) ← parseXMapEntry f rest []
        parseXMap f rest2 (insertA m kv.1 kv.2)
      else .error .expectedKeyFound
    | .textE t :: rest => do
      let _ ← xmlUnescape t
      parseXMap f rest m
    | .endE name :: rest =>
      if name = strBytes "map" then .ok (.map m, rest) else .error .tagMismatch
    | .commentE _ :: rest => parseXMap f rest m
    | [] => .error .eofInValue
    | _ => .error .unexpectedEvent

/-- `parse_map_entry`: text until `</key>`, trim and join, then exactly one
following element as the value. -/
def parseXMapEntry :
    Nat → List XEvent → List (List Nat) →
      Except XErr ((List Nat × LLSDValue) × List XEvent)
  | 0, _, _ => .error .fuelOut
  | f + 1, evs, texts =>
    match evs with
    | .startE _ _ :: _ => .error .expectedKeyFound
    | .textE t :: rest => do
      let u ← xmlUnescape t
      parseXMapEntry f rest (texts ++ [u])
    | .endE name :: rest =>
      if name = strBytes "key" then
        let k := trimChars (joinSpace texts)
        match rest with
        | .startE tag attrs :: rest2 => do
          let (v, rest3) ← parseXValue f tag attrs rest2
          .ok ((utf8encode k, v), rest3)
        | _ => .error .entryNoValue
      else .error .tagMismatch
    | .commentE _ :: rest => parseXMapEntry f rest texts
    | [] => .error .eofInValue
    | _ => .error .unexpectedEvent

end

/-- The outer loop of `xml::parse`: find `<llsd>`, parse exactly one inner
value, keep scanning to the end of the stream, rejecting a second root. -/
def xmlOuter : Nat → List XEvent → Option LLSDValue → Except XErr LLSDValue
  | 0, _, _ => .error .fuelOut
  | f + 1, evs, out =>
    match evs with
    | [] =>
      match out with
      | some v => .ok v
      | none => .error .noRoot
    | .startE name _ :: rest =>
      if name = strBytes "llsd" then
        if out.isSome then .error .moreThanOneRoot
        else
          match rest with
          | .startE tag a2 :: rest2 => do
            let (v, rest3) ← parseXValue f tag a2 rest2
            xmlOuter f rest3 (some v)
          | _ => .error .expectedData
      else .error .expectedLLSD
    | .textE _ :: rest => xmlOuter f rest out
    | .endE _ :: rest => xmlOuter f rest out
    | .commentE _ :: rest => xmlOuter f rest out
    | .declE :: rest => xmlOuter f rest out
    | .otherE :: rest => xmlOuter f rest out

/-! ### Tokenizer (the `quick_xml` reader) -/

/-- Scan past `?>`. -/
def afterPI : List Nat → Option (List Nat)
  | 63 :: 62 :: rest => some rest
  | _ :: rest => afterPI rest
  | [] => none

/-- Scan past the comment close. -/
def afterComment : List Nat → Option (List Nat)
  | 45 :: 45 :: 62 :: rest => some rest
  | _ :: rest => afterComment rest
  | [] => none

/-- Characters ending a tag name. -/
def nameStop (c : Nat) : Bool := isWs c || c = 62 || c = 47

/-- Characters ending an attribute name. -/
def attrNameStop (c : Nat) : Bool := isWs c || c = 61 || c = 62 || c = 47

/-- Parse the attribute list of a start tag, returning the attributes, the
remainder after `>`, and whether the tag was self-closing. -/
def tokAttrs : Nat → List Nat → Except XErr (List (List Nat × List Nat) × List Nat × Bool)
  | 0, _ => .error .fuelOut
  | f + 1, cs =>
    match cs.dropWhile isWs with
    | 62 :: rest => .ok ([], rest, false)
    | 47 :: 62 :: rest => .ok ([], rest, true)
    | [] => .error .tokenErr
    | cs1 =>
      let an := cs1.takeWhile fun c => ! attrNameStop c
      let cs2 := cs1.dropWhile fun c => ! attrNameStop c
      if an = [] then .error .tokenErr
      else
        match cs2.dropWhile isWs with
        | 61 :: cs4 =>
          match cs4.dropWhile isWs with
          | q :: cs6 =>
            if q = 34 ∨ q = 39 then
              let av := cs6.takeWhile fun c => decide (c ≠ q)
              match cs6.dropWhile fun c => decide (c ≠ q) with
              | _ :: cs8 => do
                let (attrs, rest, sc) ← tokAttrs f cs8
                .ok ((an, av) :: attrs, rest, sc)
              | [] => .error .tokenErr
            else .error .tokenErr
          | [] => .error .tokenErr
        | _ => .error .tokenErr

/-- The reader loop: produce the event list for a document, with
`trim_text`, `expand_empty_elements`, and end-name checking against the
open-tag stack. -/
def tokenize : Nat → List Nat → List (List Nat) → Except XErr (List XEvent)
  | 0, _, _ => .error .fuelOut
  | f + 1, cs, stack =>
    match cs with
    | [] => .ok []
    | 60 :: rest =>
      match rest with
      | 63 :: r2 =>
        match afterPI r2 with
        | some r3 => do
          let evs ← tokenize f r3 stack
          .ok (.declE :: evs)
        | none => .error .tokenErr
      | 33 :: 45 :: 45 :: r2 =>
        match afterComment r2 with
        | some r3 => do
          let evs ← tokenize f r3 stack
          .ok (.commentE [] :: evs)
        | none => .error .tokenErr
      | 33 :: r2 =>
        match r2.dropWhile fun c => decide (c ≠ 62) with
        | 62 :: r4 => do
          let evs ← tokenize f r4 stack
          .ok (.otherE :: evs)
        | _ => .error .tokenErr
      | 47 :: r2 =>
        let nm := r2.takeWhile fun c => decide (c ≠ 62)
        match r2.dropWhile fun c => decide (c ≠ 62) with
        | 62 :: r4 =>
          match stack with
          | top :: stack2 =>
            if nm = top then do
              let evs ← tokenize f r4 stack2
              .ok (.endE nm :: evs)
            else .error .tokenErr
          | [] => .error .tokenErr
        | _ => .error .tokenErr
      | _ =>
        let nm := rest.takeWhile fun c => ! nameStop c
        let r2 := rest.dropWhile fun c => ! nameStop c
        if nm = [] then .error .tokenErr
        else do
          let (attrs, r3, selfClose) ← tokAttrs (r2.length + 1) r2
          if selfClose then do
            let evs ← tokenize f r3 stack
            .ok (.startE nm attrs :: .endE nm :: evs)
          else do
            let evs ← tokenize f r3 (nm :: stack)
            .ok (.startE nm attrs :: evs)
    | _ =>
      let txt := cs.takeWhile fun c => decide (c ≠ 60)
      let r2 := cs.dropWhile fun c => decide (c ≠ 60)
      let trimmed := trimChars txt
      do
        let evs ← tokenize f r2 stack
        .ok (if trimmed = [] then evs else .textE trimmed :: evs)

def xmlTokens (cs : List Nat) : Except XErr (List XEvent) :=
  tokenize (cs.length + 1) cs []

def xmlParseEvents (evs : List XEvent) : Except XErr LLSDValue :=
  xmlOuter (2 * evs.length + 4) evs none

/-- `xml::parse` on a document given as code points (the `&str` argument). -/
def xmlParse (cs : List Nat) : Except XErr LLSDValue :=
  match xmlTokens cs with
  | .ok evs => xmlParseEvents evs
  | .error e => .error e

/-! ### Generator (`xml::pretty` / `xml::dump`) -/

/-- `xml_escape`, one character. -/
def xmlEscapeChar (c : Nat) : List Nat :=
  if c = 60 then strBytes "&lt;"
  else if c = 62 then strBytes "&gt;"
  else if c = 39 then strBytes "&apos;"
  else if c = 38 then strBytes "&amp;"
  else if c = 34 then strBytes "&quot;"
  else [c]

/-- `xml_escape` in `src/xml.rs`. -/
def xml_escape : List Nat → List Nat
  | [] => []
  | c :: t => xmlEscapeChar c ++ xml_escape t

/-- `tagvalue`: `<TAG>escaped text</TAG>` with no indentation emitted. -/
def tagvalue (tag text : List Nat) : List Nat :=
  [60] ++ tag ++ [62] ++ xml_escape text ++ [60, 47] ++ tag ++ [62]

/-- Decimal digits of a natural number (structural fuel on the value). -/
def natDigitsAux : Nat → Nat → List Nat
  | 0, _ => []
  | f + 1, n => if n < 10 then [48 + n] else natDigitsAux f (n / 10) ++ [48 + n % 10]

def natDigits (n : Nat) : List Nat := natDigitsAux (n + 1) n

/-- `i32`'s `Display`. -/
def intToText (n : Int) : List Nat :=
  if n < 0 then 45 :: natDigits (-n).toNat else natDigits n.toNat

/-- Modelled from the spec: `f64`'s `Display` is a standard-library
collaborator; decimal float formatting is not embedded and no claim uses
it. -/
def f64ToText (_ : Nat) : List Nat := []

/-- Modelled from the spec: the `uuid` crate's `Display` collaborator; not
embedded, unused by the claims. -/
def uuidToText (_ : List Nat) : List Nat := []

/-- Modelled from the spec: the `chrono` RFC-3339 formatting collaborator;
not embedded, unused by the claims. -/
def dateToText (_ : Int) : List Nat := []

/-- Modelled from the spec: the `base64` crate's encoder collaborator; not
embedded, unused by the claims. -/
def base64encodeX (_ : List Nat) : List Nat := []

/-- Rust `String` contents as code points (total because a `String` is
valid UTF-8 by construction). -/
def strOfBytes (bs : List Nat) : List Nat := (utf8decode bs).getD []

/-- `generate_value` in `src/xml.rs`: primitives only; `Map` and `Array`
fall through to `Err(anyhow!("Unreachable"))`; the `Null` arm of the
source's enum is the `Undefined` variant here; `URI` is emitted with a
`string` tag, exactly as the source does. -/
def genXmlValue : LLSDValue → Except XErr (List Nat)
  | .undefined => .ok (tagvalue (strBytes "null") [])
  | .boolean b =>
    .ok (tagvalue (strBytes "boolean") (if b then strBytes "true" else strBytes "false"))
  | .string bs => .ok (tagvalue (strBytes "string") (strOfBytes bs))
  | .uri bs => .ok (tagvalue (strBytes "string") (strOfBytes bs))
  | .integer n => .ok (tagvalue (strBytes "integer") (intToText n))
  | .real p => .ok (tagvalue (strBytes "real") (f64ToText p))
  | .uuid bs => .ok (tagvalue (strBytes "uuid") (uuidToText bs))
  | .binary bs => .ok (tagvalue (strBytes "binary") (base64encodeX bs))
  | .date n => .ok (tagvalue (strBytes "date") (dateToText n))
  | .map _ => .error .unreachable
  | .array _ => .error .unreachable

/-- `xml::pretty`: generate the value (the indentation parameters never
reach the output in this version of the source) and return the UTF-8
bytes. -/
def xmlPretty (v : LLSDValue) (_spaces : Nat) : Except XErr (List Nat) := do
  let cs ← genXmlValue v
  .ok (utf8encode cs)

/-- `xml::dump` = `pretty` with no indentation. -/
def xmlDump (v : LLSDValue) : Except XErr (List Nat) := xmlPretty v 0

/-! ## Dispatcher (`LLSDValue::parse` in `src/lib.rs`) -/

/-- Dispatcher errors.  `panicked` marks the unchecked-indexing outcomes the
Rust code would reach only by an out-of-bounds slice or index; the theorems
show it is never produced. -/
inductive DErr where
  | binE : BErr → DErr
  | xmlE : XErr → DErr
  | invalidUtf8 : DErr
  | notRecognized : List Nat → DErr
  | panicked : DErr

/-- Modelled from the spec: `binary::LLSDBINARYSENTINEL` is referenced by
`src/lib.rs` but not defined in the sources under `src/`; spec section 6
fixes the sentinel as a fixed ASCII literal followed by a newline,
"identical for encode and full-message decode", i.e. the same bytes
`to_bytes` writes (`LLSDBINARYPREFIX`). -/
def llsdBinarySentinel : List Nat := llsdBinaryHeader

/-- Modelled from the spec: `xml::LLSDXMLSENTINEL` is referenced by
`src/lib.rs` but not defined in the sources under `src/`; spec section 4.4
identifies the text sentinel with the XML declaration token. -/
def llsdXmlSentinel : List Nat := strBytes "<?xml"

def exceptMapE {ε ε' α : Type} (f : ε → ε') : Except ε α → Except ε' α
  | .ok a => .ok a
  | .error e => .error (f e)

/-- Phase 3 to 5 of the dispatcher: interpret the buffer as UTF-8, try the
XML sentinel, otherwise fail with a 60-character diagnostic snippet
(`msgstring.chars().zip(0..60)`). -/
def parseTextPhase (msg : List Nat) : Except DErr LLSDValue :=
  match utf8decode msg with
  | none => .error .invalidUtf8
  | some cs =>
    if (cs.dropWhile isWs).take llsdXmlSentinel.length = llsdXmlSentinel then
      exceptMapE DErr.xmlE (xmlParse cs)
    else .error (.notRecognized (cs.take 60))

/-- `LLSDValue::parse`: sentinel match (with the sentinel stripped before
handing to `binary::parse`), then the headerless bracket heuristic (whole
buffer handed to `binary::parse`), then the text phase.  The indexing of
`msg[0]`/`msg[msg.len()-1]` is modelled with checked access whose failure
would be `panicked`. -/
def LLSDValue.parse (msg : List Nat) : Except DErr LLSDValue :=
  if llsdBinarySentinel.length ≤ msg.length ∧
      msg.take llsdBinarySentinel.length = llsdBinarySentinel then
    exceptMapE DErr.binE (binaryParse (msg.drop llsdBinarySentinel.length))
  else if 1 < msg.length then
    match msg.head?, msg.getLast? with
    | some b0, some bl =>
      if b0 = bl ∧ (b0 = 123 ∨ b0 = 91) then
        exceptMapE DErr.binE (binaryParse msg)
      else parseTextPhase msg
    | _, _ => .error .panicked
  else parseTextPhase msg

/-! ## Theorems -/

theorem asm4_leBytes4 (n : Nat) (h : n < 2 ^ 32) : asm4 (leBytes4 n) = n := by
  simp only [leBytes4, asm4]
  omega

theorem asm8_leBytes8 (n : Nat) (h : n < 2 ^ 64) : asm8 (leBytes8 n) = n := by
  simp only [leBytes8, asm8]
  omega

theorem leBytes4_length (n : Nat) : (leBytes4 n).length = 4 := rfl

theorem leBytes8_length (n : Nat) : (leBytes8 n).length = 8 := rfl

theorem fromU32_toU32 (n : Int) (h1 : -(2 ^ 31) ≤ n) (h2 : n < 2 ^ 31) :
    fromU32 (toU32 n) = n := by
  simp only [fromU32, toU32]
  omega

theorem toU32_lt (n : Int) : toU32 n < 2 ^ 32 := by
  simp only [toU32]
  omega

theorem fromU64_toU64 (n : Int) (h1 : -(2 ^ 63) ≤ n) (h2 : n < 2 ^ 63) :
    fromU64 (toU64 n) = n := by
  simp only [fromU64, toU64]
  omega

theorem toU64_lt (n : Int) : toU64 n < 2 ^ 64 := by
  simp only [toU64]
  omega

theorem utf8dec2_spec (b0 : Nat) (r : List Nat) (c : Nat) (rest : List Nat)
    (hlo : 194 ≤ b0) (hhi : b0 < 224) (h : utf8dec2 b0 r = some (c, rest)) :
    utf8encodeChar c ++ rest = b0 :: r ∧ rest.length < r.length + 1 := by
  cases r with
  | nil => simp [utf8dec2] at h
  | cons b1 r1 =>
    rw [utf8dec2] at h
    split at h
    · rename_i hb1
      simp only [cont, Bool.and_eq_true, decide_eq_true_eq] at hb1
      simp only [Option.some.injEq, Prod.mk.injEq] at h
      obtain ⟨hc, h2⟩ := h
      subst hc; subst h2
      have hn1 : ¬ (b0 - 192) * 64 + (b1 - 128) < 128 := by omega
      have hn2 : (b0 - 192) * 64 + (b1 - 128) < 2048 := by omega
      refine ⟨?_, by simp only [List.length_cons]; omega⟩
      simp only [utf8encodeChar, if_neg hn1, if_pos hn2, List.cons_append,
        List.nil_append, List.cons.injEq, and_true]
      refine ⟨by omega, by omega⟩
    · exact Option.noConfusion h

theorem utf8dec3_spec (b0 : Nat) (r : List Nat) (c : Nat) (rest : List Nat)
    (hlo : 224 ≤ b0) (hhi : b0 < 240) (h : utf8dec3 b0 r = some (c, rest)) :
    utf8encodeChar c ++ rest = b0 :: r ∧ rest.length < r.length + 1 := by
  match r with
  | [] => simp [utf8dec3] at h
  | [b1] => simp [utf8dec3] at h
  | b1 :: b2 :: r2 =>
    rw [utf8dec3] at h
    split at h
    · rename_i hb
      simp only [cont, Bool.and_eq_true, decide_eq_true_eq] at hb
      obtain ⟨⟨hb1a, hb1b⟩, hb2a, hb2b⟩ := hb
      simp only [Option.some.injEq, Prod.mk.injEq] at h
      obtain ⟨hc, h2⟩ := h
      subst hc; subst h2
      have hb1u : b1 < 192 := by
        unfold hi3 at hb1b
        split at hb1b <;> omega
      have hb1l : 128 ≤ b1 := by
        unfold lo3 at hb1a
        split at hb1a <;> omega
      have hge : 2048 ≤ (b0 - 224) * 4096 + (b1 - 128) * 64 + (b2 - 128) := by
        unfold lo3 at hb1a
        split at hb1a
        · rename_i he; omega
        · omega
      have hlt : (b0 - 224) * 4096 + (b1 - 128) * 64 + (b2 - 128) < 65536 := by
        unfold hi3 at hb1b
        split at hb1b <;> omega
      have hn1 : ¬ (b0 - 224) * 4096 + (b1 - 128) * 64 + (b2 - 128) < 128 := by omega
      have hn2 : ¬ (b0 - 224) * 4096 + (b1 - 128) * 64 + (b2 - 128) < 2048 := by omega
      refine ⟨?_, by simp only [List.length_cons]; omega⟩
      simp only [utf8encodeChar, if_neg hn1, if_neg hn2, if_pos hlt, List.cons_append,
        List.nil_append, List.cons.injEq, and_true]
      refine ⟨by omega, by omega, by omega⟩
    · exact Option.noConfusion h

theorem utf8dec4_spec (b0 : Nat) (r : List Nat) (c : Nat) (rest : List Nat)
    (hlo : 240 ≤ b0) (hhi : b0 < 245) (h : utf8dec4 b0 r = some (c, rest)) :
    utf8encodeChar c ++ rest = b0 :: r ∧ rest.length < r.length + 1 := by
  match r with
  | [] => simp [utf8dec4] at h
  | [b1] => simp [utf8dec4] at h
  | [b1, b2] => simp [utf8dec4] at h
  | b1 :: b2 :: b3 :: r3 =>
    rw [utf8dec4] at h
    split at h
    · rename_i hb
      simp only [cont, Bool.and_eq_true, decide_eq_true_eq] at hb
      obtain ⟨⟨⟨hb1a, hb1b⟩, hb2a, hb2b⟩, hb3a, hb3b⟩ := hb
      simp only [Option.some.injEq, Prod.mk.injEq] at h
      obtain ⟨hc, h2⟩ := h
      subst hc; subst h2
      have hb1u : b1 < 192 := by
        unfold hi4 at hb1b
        split at hb1b <;> omega
      have hb1l : 128 ≤ b1 := by
        unfold lo4 at hb1a
        split at hb1a <;> omega
      have hge :
          65536 ≤ (b0 - 240) * 262144 + (b1 - 128) * 4096 + (b2 - 128) * 64 + (b3 - 128) := by
        unfold lo4 at hb1a
        split at hb1a
        · rename_i he; omega
        · omega
      have hn1 :
          ¬ (b0 - 240) * 262144 + (b1 - 128) * 4096 + (b2 - 128) * 64 + (b3 - 128) < 128 := by
        omega
      have hn2 :
          ¬ (b0 - 240) * 262144 + (b1 - 128) * 4096 + (b2 - 128) * 64 + (b3 - 128) < 2048 := by
        omega
      have hn3 :
          ¬ (b0 - 240) * 262144 + (b1 - 128) * 4096 + (b2 - 128) * 64 + (b3 - 128) < 65536 := by
        omega
      refine ⟨?_, by simp only [List.length_cons]; omega⟩
      simp only [utf8encodeChar, if_neg hn1, if_neg hn2, if_neg hn3,
        List.cons_append, List.nil_append, List.cons.injEq, and_true]
      refine ⟨by omega, by omega, by omega, by omega⟩
    · exact Option.noConfusion h

/-- Successfully decoded characters re-encode to exactly the consumed bytes
(canonicity of valid UTF-8), and decoding consumes at least one byte. -/
theorem utf8decodeChar_spec (bs : List Nat) (c : Nat) (rest : List Nat)
    (h : utf8decodeChar bs = some (c, rest)) :
    utf8encodeChar c ++ rest = bs ∧ rest.length < bs.length := by
  cases bs with
  | nil => simp [utf8decodeChar] at h
  | cons b0 r =>
    rw [utf8decodeChar] at h
    split at h
    · rename_i h0
      simp only [Option.some.injEq, Prod.mk.injEq] at h
      obtain ⟨hc, h2⟩ := h
      subst hc; subst h2
      exact ⟨by simp [utf8encodeChar, h0], by simp⟩
    · split at h
      · exact Option.noConfusion h
      · split at h
        · rename_i h1 h2
          have := utf8dec2_spec b0 r c rest (by omega) (by omega) h
          exact ⟨this.1, by simpa using this.2⟩
        · split at h
          · rename_i h1 h2 h3
            have := utf8dec3_spec b0 r c rest (by omega) (by omega) h
            exact ⟨this.1, by simpa using this.2⟩
          · split at h
            · rename_i h1 h2 h3 h4
              have := utf8dec4_spec b0 r c rest (by omega) (by omega) h
              exact ⟨this.1, by simpa using this.2⟩
            · exact Option.noConfusion h

theorem utf8decodeChar_shrink (bs : List Nat) (c : Nat) (rest : List Nat)
    (h : utf8decodeChar bs = some (c, rest)) : rest.length < bs.length :=
  (utf8decodeChar_spec bs c rest h).2

theorem utf8encodeChar_decodeChar (bs : List Nat) (c : Nat) (rest : List Nat)
    (h : utf8decodeChar bs = some (c, rest)) : utf8encodeChar c ++ rest = bs :=
  (utf8decodeChar_spec bs c rest h).1

/-- Re-encoding any prefix of the decoded characters yields a prefix of the
original bytes: char-count truncation never cuts mid-codepoint. -/
theorem utf8decodeAux_take_isPrefix :
    ∀ (f : Nat) (bs cs : List Nat), utf8decodeAux f bs = some cs →
      ∀ (k : Nat), (utf8encode (cs.take k)) <+: bs := by
  intro f
  induction f with
  | zero =>
    intro bs cs h k
    cases bs with
    | nil =>
      simp only [utf8decodeAux, Option.some.injEq] at h
      subst h
      simp [utf8encode]
    | cons b0 r => exact Option.noConfusion h
  | succ f ih =>
    intro bs cs h k
    cases bs with
    | nil =>
      simp only [utf8decodeAux, Option.some.injEq] at h
      subst h
      simp [utf8encode]
    | cons b0 r =>
      rw [utf8decodeAux] at h
      cases hchar : utf8decodeChar (b0 :: r) with
      | none => rw [hchar] at h; exact Option.noConfusion h
      | some p =>
        obtain ⟨c, rest⟩ := p
        rw [hchar] at h
        dsimp only at h
        cases hrest : utf8decodeAux f rest with
        | none => rw [hrest] at h; exact Option.noConfusion h
        | some cs' =>
          rw [hrest] at h
          simp only [Option.some.injEq] at h
          subst h
          match k with
          | 0 => simp [utf8encode]
          | k' + 1 =>
            simp only [List.take_succ_cons, utf8encode]
            have hpre := ih rest cs' hrest k'
            have henc := utf8encodeChar_decodeChar (b0 :: r) c rest hchar
            obtain ⟨t, ht⟩ := hpre
            exact ⟨t, by rw [List.append_assoc, ht, henc]⟩

theorem utf8decode_take_isPrefix (bs cs : List Nat) (h : utf8decode bs = some cs)
    (k : Nat) : (utf8encode (cs.take k)) <+: bs :=
  utf8decodeAux_take_isPrefix (bs.length + 1) bs cs h k

/-- The decoded character count never exceeds the byte count. -/
theorem utf8decodeAux_length_le :
    ∀ (f : Nat) (bs cs : List Nat), utf8decodeAux f bs = some cs →
      cs.length ≤ bs.length := by
  intro f
  induction f with
  | zero =>
    intro bs cs h
    cases bs with
    | nil =>
      simp only [utf8decodeAux, Option.some.injEq] at h
      subst h
      simp
    | cons b0 r => exact Option.noConfusion h
  | succ f ih =>
    intro bs cs h
    cases bs with
    | nil =>
      simp only [utf8decodeAux, Option.some.injEq] at h
      subst h
      simp
    | cons b0 r =>
      rw [utf8decodeAux] at h
      cases hchar : utf8decodeChar (b0 :: r) with
      | none => rw [hchar] at h; exact Option.noConfusion h
      | some p =>
        obtain ⟨c, rest⟩ := p
        rw [hchar] at h
        dsimp only at h
        cases hrest : utf8decodeAux f rest with
        | none => rw [hrest] at h; exact Option.noConfusion h
        | some cs' =>
          rw [hrest] at h
          simp only [Option.some.injEq] at h
          subst h
          have h1 := ih rest cs' hrest
          have h2 := utf8decodeChar_shrink (b0 :: r) c rest hchar
          simp only [List.length_cons] at h2 ⊢
          omega

theorem cost_pos (v : LLSDValue) : 1 ≤ cost v := by
  cases v <;> simp [cost]

theorem costEntries_pos (es : List (List Nat × LLSDValue)) : 1 ≤ costEntries es := by
  cases es with
  | nil => simp [costEntries]
  | cons e t =>
    obtain ⟨k, v⟩ := e
    simp [costEntries]

theorem costItems_pos (xs : List LLSDValue) : 1 ≤ costItems xs := by
  cases xs <;> simp [costItems]

/-! ## Reader lemmas -/

theorem okBind {α β ε : Type} (a : α) (f : α → Except ε β) :
    (Except.ok (ε := ε) a >>= f) = f a := rfl

theorem readExact_append (n : Nat) (xs rest : List Nat) (h : n = xs.length) :
    readExact n (xs ++ rest) = .ok (xs, rest) := by
  subst h
  simp [readExact, List.take_left, List.drop_left]

theorem readU32_le (n : Nat) (rest : List Nat) (h : n < 2 ^ 32) :
    readU32 (leBytes4 n ++ rest) = .ok (n, rest) := by
  rw [readU32, readExact_append 4 (leBytes4 n) rest (leBytes4_length n).symm]
  simp only [okBind]
  simp [asm4_leBytes4 n h]

theorem readPad_append (n : Nat) (xs rest : List Nat) (h : n = xs.length) :
    readPad n (xs ++ rest) = (xs, rest) := by
  subst h
  simp [readPad, List.take_left, List.drop_left]

theorem readVariable_append (xs rest : List Nat) (h : xs.length < 2 ^ 32) :
    readVariable (leBytes4 xs.length ++ (xs ++ rest)) = .ok (xs, rest) := by
  rw [readVariable, readU32_le xs.length (xs ++ rest) h]
  simp only [okBind]
  rw [readPad_append xs.length xs rest rfl]

theorem ensureUtf8_ok (bs : List Nat) (h : (utf8decode bs).isSome) :
    ensureUtf8 bs = .ok bs := by
  rw [ensureUtf8]
  cases hu : utf8decode bs with
  | none => rw [hu] at h; simp at h
  | some cs => rfl

/-! ## `HashMap` insertion facts -/

theorem insertA_append (d : List (List Nat × LLSDValue)) (k : List Nat)
    (v : LLSDValue) (h : ∀ e ∈ d, e.1 ≠ k) : insertA d k v = d ++ [(k, v)] := by
  induction d with
  | nil => rfl
  | cons e t ih =>
    obtain ⟨k', v'⟩ := e
    have hk : k' ≠ k := h (k', v') (by simp)
    simp only [insertA, if_neg hk, List.cons_append, List.cons.injEq, true_and]
    exact ih fun e he => h e (by simp [he])

theorem foldIns_append :
    ∀ (es d : List (List Nat × LLSDValue)), keysNodup es = true →
      (∀ e ∈ es, ∀ e2 ∈ d, e2.1 ≠ e.1) → foldIns d es = d ++ es := by
  intro es
  induction es with
  | nil =>
    intro d _ _
    simp [foldIns]
  | cons e t ih =>
    intro d hnd hdisj
    obtain ⟨k, v⟩ := e
    simp only [keysNodup, Bool.and_eq_true, List.all_eq_true, decide_eq_true_eq] at hnd
    obtain ⟨hall, hnd'⟩ := hnd
    rw [foldIns]
    rw [insertA_append d k v fun e2 he2 => hdisj (k, v) (by simp) e2 he2]
    rw [ih (d ++ [(k, v)]) hnd']
    · simp
    · intro e he e2 he2
      rcases List.mem_append.mp he2 with h2 | h2
      · exact hdisj e (by simp [he]) e2 h2
      · have : e2 = (k, v) := by simpa using h2
        subst this
        exact fun hek => (hall e he) (hek ▸ rfl)

/-! ## The binary round trip -/

/-- Joint statement for the value/map-loop/array-loop parsers, proved by
induction on fuel (every recursive call in the parser runs at one less
fuel). -/
theorem roundtrip_all (f : Nat) :
    (∀ (v : LLSDValue) (rest : List Nat), wfValue v = true → cost v ≤ f →
      parse_value f (generate_value v ++ rest) = .ok (v, rest)) ∧
    (∀ (es d : List (List Nat × LLSDValue)) (rest : List Nat),
      wfEntries es = true → costEntries es ≤ f →
      parseEntries f es.length (genEntries es ++ rest) d = .ok (foldIns d es, rest)) ∧
    (∀ (xs acc : List LLSDValue) (rest : List Nat),
      wfItems xs = true → costItems xs ≤ f →
      parseItems f xs.length (genItems xs ++ rest) acc = .ok (acc ++ xs, rest)) := by
  induction f with
  | zero =>
    refine ⟨?_, ?_, ?_⟩
    · intro v rest hwf hc
      exact absurd (Nat.le_trans (cost_pos v) hc) (by omega)
    · intro es d rest hwf hc
      exact absurd (Nat.le_trans (costEntries_pos es) hc) (by omega)
    · intro xs acc rest hwf hc
      exact absurd (Nat.le_trans (costItems_pos xs) hc) (by omega)
  | succ f ih =>
    obtain ⟨ihV, ihE, ihI⟩ := ih
    refine ⟨?_, ?_, ?_⟩
    · intro v rest hwf hc
      cases v with
      | undefined => rfl
      | boolean b => cases b <;> rfl
      | integer n =>
        simp only [wfValue, Bool.and_eq_true, decide_eq_true_eq] at hwf
        rw [generate_value, List.cons_append, parse_value]
        simp only [readU8, okBind]
        rw [readExact_append 4 (leBytes4 (toU32 n)) rest (leBytes4_length _).symm]
        simp only [okBind]
        rw [asm4_leBytes4 _ (toU32_lt n), fromU32_toU32 n hwf.1 hwf.2]
      | real p =>
        simp only [wfValue, Bool.and_eq_true, decide_eq_true_eq] at hwf
        rw [generate_value, List.cons_append, parse_value]
        simp only [readU8, okBind]
        rw [readExact_append 8 (leBytes8 p) rest (leBytes8_length _).symm]
        simp only [okBind]
        rw [asm8_leBytes8 _ hwf.1]
      | date n =>
        simp only [wfValue, Bool.and_eq_true, decide_eq_true_eq] at hwf
        rw [generate_value, List.cons_append, parse_value]
        simp only [readU8, okBind]
        rw [readExact_append 8 (leBytes8 (toU64 n)) rest (leBytes8_length _).symm]
        simp only [okBind]
        rw [asm8_leBytes8 _ (toU64_lt n), fromU64_toU64 n hwf.1 hwf.2]
      | uuid bs =>
        simp only [wfValue, Bool.and_eq_true, decide_eq_true_eq] at hwf
        rw [generate_value, List.cons_append, parse_value]
        simp only [readU8, okBind]
        rw [readPad_append 16 bs rest hwf.1.symm]
      | string bs =>
        have hwf' : wfStr bs = true := hwf
        simp only [wfStr, Bool.and_eq_true, decide_eq_true_eq] at hwf'
        rw [generate_value, List.cons_append, List.append_assoc, parse_value]
        simp only [readU8, okBind]
        rw [readVariable_append bs rest hwf'.1.1]
        simp only [okBind]
        rw [ensureUtf8_ok bs hwf'.2]
        simp only [okBind]
      | uri bs =>
        have hwf' : wfStr bs = true := hwf
        simp only [wfStr, Bool.and_eq_true, decide_eq_true_eq] at hwf'
        rw [generate_value, List.cons_append, List.append_assoc, parse_value]
        simp only [readU8, okBind]
        rw [readVariable_append bs rest hwf'.1.1]
        simp only [okBind]
        rw [ensureUtf8_ok bs hwf'.2]
        simp only [okBind]
      | binary bs =>
        simp only [wfValue, Bool.and_eq_true, decide_eq_true_eq] at hwf
        rw [generate_value, List.cons_append, List.append_assoc, parse_value]
        simp only [readU8, okBind]
        rw [readVariable_append bs rest hwf.1]
        simp only [okBind]
      | map es =>
        simp only [wfValue, Bool.and_eq_true, decide_eq_true_eq] at hwf
        obtain ⟨⟨hlen, hnd⟩, hwfE⟩ := hwf
        have hcE : costEntries es ≤ f := by
          simp only [cost] at hc
          omega
        rw [generate_value, List.cons_append, List.append_assoc, parse_value]
        simp only [readU8, okBind]
        rw [readU32_le es.length _ hlen]
        simp only [okBind, List.append_assoc, List.singleton_append]
        rw [ihE es [] (125 :: rest) hwfE hcE]
        simp only [okBind, readU8]
        rw [foldIns_append es [] hnd (by intro e he e2 he2; cases he2)]
        simp
      | array xs =>
        simp only [wfValue, Bool.and_eq_true, decide_eq_true_eq] at hwf
        obtain ⟨hlen, hwfI⟩ := hwf
        have hcI : costItems xs ≤ f := by
          simp only [cost] at hc
          omega
        rw [generate_value, List.cons_append, List.append_assoc, parse_value]
        simp only [readU8, okBind]
        rw [readU32_le xs.length _ hlen]
        simp only [okBind, List.append_assoc, List.singleton_append]
        rw [ihI xs [] (93 :: rest) hwfI hcI]
        simp only [okBind, readU8]
        simp
    · intro es d rest hwf hc
      cases es with
      | nil => rfl
      | cons e t =>
        obtain ⟨k, v⟩ := e
        simp only [wfEntries, Bool.and_eq_true] at hwf
        obtain ⟨⟨hk, hv⟩, ht⟩ := hwf
        have hk' : wfStr k = true := hk
        simp only [wfStr, Bool.and_eq_true, decide_eq_true_eq] at hk'
        have hcv : cost v ≤ f := by
          simp only [costEntries] at hc
          omega
        have hct : costEntries t ≤ f := by
          simp only [costEntries] at hc
          omega
        rw [genEntries, List.length_cons]
        simp only [List.append_assoc]
        rw [parseEntries]
        rw [readVariable_append k _ hk'.1.1]
        simp only [okBind]
        rw [ensureUtf8_ok k hk'.2]
        simp only [okBind]
        rw [ihV v _ hv hcv]
        simp only [okBind]
        rw [ihE t (insertA d k v) rest ht hct]
        rfl
    · intro xs acc rest hwf hc
      cases xs with
      | nil =>
        simp only [genItems, List.nil_append, List.length_nil, parseItems,
          List.append_nil]
      | cons v t =>
        simp only [wfItems, Bool.and_eq_true] at hwf
        obtain ⟨hv, ht⟩ := hwf
        have hcv : cost v ≤ f := by
          simp only [costItems] at hc
          omega
        have hct : costItems t ≤ f := by
          simp only [costItems] at hc
          omega
        rw [genItems, List.length_cons, List.append_assoc, parseItems]
        rw [ihV v _ hv hcv]
        simp only [okBind]
        rw [ihI t (acc ++ [v]) rest ht hct]
        simp only [List.append_assoc, List.singleton_append]

theorem parse_gen (f : Nat) (v : LLSDValue) (rest : List Nat)
    (hwf : wfValue v = true) (hc : cost v ≤ f) :
    parse_value f (generate_value v ++ rest) = .ok (v, rest) :=
  (roundtrip_all f).1 v rest hwf hc

theorem parseEntries_gen (f : Nat) (es d : List (List Nat × LLSDValue))
    (rest : List Nat) (hwf : wfEntries es = true) (hc : costEntries es ≤ f) :
    parseEntries f es.length (genEntries es ++ rest) d = .ok (foldIns d es, rest) :=
  (roundtrip_all f).2.1 es d rest hwf hc

theorem parseItems_gen (f : Nat) (xs acc : List LLSDValue) (rest : List Nat)
    (hwf : wfItems xs = true) (hc : costItems xs ≤ f) :
    parseItems f xs.length (genItems xs ++ rest) acc = .ok (acc ++ xs, rest) :=
  (roundtrip_all f).2.2 xs acc rest hwf hc

/-- Every encoding is at least one byte (the tag). -/
theorem gen_length_pos (v : LLSDValue) : 1 ≤ (generate_value v).length := by
  cases v with
  | boolean b => cases b <;> simp [generate_value]
  | _ => simp [generate_value]

/-- The fuel bound is dominated by the encoded length. -/
theorem cost_le_all (n : Nat) :
    (∀ v : LLSDValue, cost v ≤ n → cost v ≤ (generate_value v).length) ∧
    (∀ es : List (List Nat × LLSDValue), costEntries es ≤ n →
      costEntries es ≤ (genEntries es).length + 1) ∧
    (∀ xs : List LLSDValue, costItems xs ≤ n →
      costItems xs ≤ (genItems xs).length + 1) := by
  induction n with
  | zero =>
    refine ⟨?_, ?_, ?_⟩
    · intro v hc
      exact absurd (Nat.le_trans (cost_pos v) hc) (by omega)
    · intro es hc
      exact absurd (Nat.le_trans (costEntries_pos es) hc) (by omega)
    · intro xs hc
      exact absurd (Nat.le_trans (costItems_pos xs) hc) (by omega)
  | succ n ih =>
    obtain ⟨ihV, ihE, ihI⟩ := ih
    refine ⟨?_, ?_, ?_⟩
    · intro v hc
      cases v with
      | map es =>
        have h1 : costEntries es ≤ n := by
          simp only [cost] at hc
          omega
        have h2 := ihE es h1
        simp only [cost, generate_value, List.length_cons, List.length_append,
          leBytes4_length]
        omega
      | array xs =>
        have h1 : costItems xs ≤ n := by
          simp only [cost] at hc
          omega
        have h2 := ihI xs h1
        simp only [cost, generate_value, List.length_cons, List.length_append,
          leBytes4_length]
        omega
      | undefined => simp [cost, generate_value]
      | boolean b => cases b <;> simp [cost, generate_value]
      | integer m => simp [cost, generate_value]
      | real p => simp [cost, generate_value]
      | date m => simp [cost, generate_value]
      | uuid bs => simp [cost, generate_value]
      | string bs => simp [cost, generate_value]
      | uri bs => simp [cost, generate_value]
      | binary bs => simp [cost, generate_value]
    · intro es hc
      cases es with
      | nil => simp [costEntries, genEntries]
      | cons e t =>
        obtain ⟨k, v⟩ := e
        have hv : cost v ≤ n := by
          simp only [costEntries] at hc
          omega
        have ht : costEntries t ≤ n := by
          simp only [costEntries] at hc
          omega
        have h1 := ihV v hv
        have h2 := ihE t ht
        simp only [costEntries, genEntries, List.length_append, leBytes4_length]
        omega
    · intro xs hc
      cases xs with
      | nil => simp [costItems, genItems]
      | cons v t =>
        have hv : cost v ≤ n := by
          simp only [costItems] at hc
          omega
        have ht : costItems t ≤ n := by
          simp only [costItems] at hc
          omega
        have h1 := ihV v hv
        have h2 := ihI t ht
        have h3 := gen_length_pos v
        simp only [costItems, genItems, List.length_append]
        omega

theorem cost_le_gen (v : LLSDValue) : cost v ≤ (generate_value v).length :=
  (cost_le_all (cost v)).1 v (Nat.le_refl _)

theorem llsdBinaryHeader_length : llsdBinaryHeader.length = 18 := rfl

/-- The binary round trip at the module entry points: for any value a Rust
caller can construct (`wfValue`), decoding the encoding succeeds and returns
the value unchanged. -/
theorem binaryParse_to_bytes (v : LLSDValue) (hwf : wfValue v = true) :
    binaryParse (to_bytes v) = .ok v := by
  rw [to_bytes, binaryParse]
  rw [if_pos (by simp [llsdBinaryHeader_length])]
  rw [if_pos (by rw [List.take_left])]
  rw [List.drop_left]
  have hfuel : cost v ≤ 2 * (llsdBinaryHeader ++ generate_value v).length + 4 := by
    have h1 := cost_le_gen v
    simp only [List.length_append]
    omega
  have := parse_gen (2 * (llsdBinaryHeader ++ generate_value v).length + 4) v []
    hwf hfuel
  rw [List.append_nil] at this
  rw [this]

/-! ## Claim theorems -/

/-- C1: for every constructible LLSDValue tree `v` containing only finite
reals, `binary::parse (binary::to_bytes v)` succeeds and returns a value
structurally equal to `v`.  `wfValue` captures constructibility (valid
UTF-8 strings, 16-byte UUIDs, in-range machine integers, unique `HashMap`
keys, lengths within `u32`) together with the finite-real restriction.  The
theorem holds for the entry list of the map in any iteration order, and
decode reproduces that very list, so equality of maps is independent of the
key iteration order the encoder happened to use. -/
theorem claim_C1_binary_roundtrip (v : LLSDValue) (hwf : wfValue v = true) :
    binaryParse (to_bytes v) = .ok v :=
  binaryParse_to_bytes v hwf

/-- The concrete tree of the spec's test scenario:
`[123.5, 42, {"val1": 456.0, "val2": 999}, "Hello world"]`. -/
def c1value : LLSDValue :=
  .array [.real 4638390956842811392, .integer 42,
    .map [(strBytes "val1", .real 4646729653027864576),
          (strBytes "val2", .integer 999)],
    .string (strBytes "Hello world")]

/-- Witness for C1 at the spec's concrete test tree. -/
theorem claim_C1_binary_roundtrip_witness :
    wfValue c1value = true ∧ binaryParse (to_bytes c1value) = .ok c1value :=
  ⟨by decide, claim_C1_binary_roundtrip c1value (by decide)⟩

/-- C2 fails on the code: the generator emits no `<llsd>` wrapper and uses
the element name `boolean` while the parser requires the wrapper and knows
only `bool`; composites are unimplemented on both sides.  This theorem
evaluates the code at the failing input `Boolean(true)`: the generated text
is `<boolean>true</boolean>` and decoding it fails; generating any
`Array`/`Map` fails outright, and parsing an `array` element is
`Unimplemented`. -/
theorem claim_C2_xml_roundtrip_fails :
    xmlPretty (.boolean true) 0 = .ok (strBytes "<boolean>true</boolean>") ∧
    xmlParse (strBytes "<boolean>true</boolean>") = .error .expectedLLSD ∧
    xmlPretty (.array [.boolean true]) 0 = .error .unreachable ∧
    xmlParse (strBytes "<llsd><array><integer>1</integer></array></llsd>") =
      .error .unimplemented :=
  ⟨rfl, rfl, rfl, rfl⟩

/-- C4 fails on the code: the dispatcher strips the sentinel before calling
`binary::parse`, but `binary::parse` itself demands the sentinel again, so a
well-formed full message is always rejected (contradicting the library's own
round-trip unit test).  Evaluated at the sentinel followed by the encoding
of `Undefined` (one byte, so the re-check runs out of data) and of an
18-byte string (long enough that the re-check reports a wrong header). -/
theorem claim_C4_sentinel_stripped_twice :
    to_bytes .undefined = llsdBinarySentinel ++ [33] ∧
    LLSDValue.parse (to_bytes .undefined) = .error (.binE .truncated) ∧
    LLSDValue.parse (to_bytes (.string (strBytes "aaaaaaaaaaaaaaaaaa"))) =
      .error (.binE .badHeader) :=
  ⟨rfl, rfl, rfl⟩

/-- C6 fails on the code: `read_variable` and the UUID read use plain
`Cursor::read` into a zero-initialised buffer instead of `read_exact`, so a
declared length longer than the remaining bytes succeeds with zero-padded
data.  Evaluated at a string declaring 5 bytes with 2 supplied, a UUID with
3 of its 16 bytes supplied, and a binary payload declaring 4 bytes with 1
supplied. -/
theorem claim_C6_truncated_zero_padded :
    binaryParse (llsdBinaryHeader ++ [115, 5, 0, 0, 0, 97, 98]) =
      .ok (.string [97, 98, 0, 0, 0]) ∧
    binaryParse (llsdBinaryHeader ++ [117, 1, 2, 3]) =
      .ok (.uuid [1, 2, 3, 0, 0, 0, 0, 0, 0, 0, 0, 0, 0, 0, 0, 0]) ∧
    binaryParse (llsdBinaryHeader ++ [98, 4, 0, 0, 0, 9]) =
      .ok (.binary [9, 0, 0, 0]) :=
  ⟨rfl, rfl, rfl⟩

/-- C7 fails on the code: the boolean branch is
`text.parse::<bool>()`, which accepts only `true`/`false`; the literals
`"0"` and `"1"` are rejected with a parse error (the source's own TODO notes
the missing numeric forms).  Evaluated through the full text pipeline. -/
theorem claim_C7_bool_numeric_rejected :
    xmlParse (strBytes "<llsd><bool>1</bool></llsd>") = .error .boolErr ∧
    xmlParse (strBytes "<llsd><bool>0</bool></llsd>") = .error .boolErr ∧
    xmlParse (strBytes "<llsd><bool>true</bool></llsd>") = .ok (.boolean true) ∧
    xmlParse (strBytes "<llsd><bool>false</bool></llsd>") = .ok (.boolean false) :=
  ⟨rfl, rfl, rfl, rfl⟩

/-- C3 as stated (big-endian) is false at `Integer 1`: the encoder writes
the little-endian bytes `[1,0,0,0]`, not `[0,0,0,1]`, and the decoder reads
the big-endian spelling of 1 back as 2^24. -/
theorem claim_C3_counterexample :
    ¬ to_bytes (.integer 1) = llsdBinaryHeader ++ [105, 0, 0, 0, 1] ∧
    to_bytes (.integer 1) = llsdBinaryHeader ++ [105, 1, 0, 0, 0] ∧
    binaryParse (llsdBinaryHeader ++ [105, 0, 0, 0, 1]) = .ok (.integer 16777216) :=
  ⟨by decide, rfl, rfl⟩

/-- C3 amended: every multi-byte fixed-width field — the Integer, Real and
Date payloads, the String/URI/Binary length prefixes, and the Map/Array
entry counts — is written by `to_bytes` and read back by `parse` in
LITTLE-endian byte order. -/
theorem claim_C3_little_endian :
    (∀ n : Int, -(2 ^ 31) ≤ n → n < 2 ^ 31 →
      to_bytes (.integer n) = llsdBinaryHeader ++ 105 :: leBytes4 (toU32 n) ∧
      binaryParse (llsdBinaryHeader ++ 105 :: leBytes4 (toU32 n)) = .ok (.integer n)) ∧
    (∀ p : Nat, p < 2 ^ 64 → isFiniteF64 p = true →
      to_bytes (.real p) = llsdBinaryHeader ++ 114 :: leBytes8 p ∧
      binaryParse (llsdBinaryHeader ++ 114 :: leBytes8 p) = .ok (.real p)) ∧
    (∀ d : Int, -(2 ^ 63) ≤ d → d < 2 ^ 63 →
      to_bytes (.date d) = llsdBinaryHeader ++ 100 :: leBytes8 (toU64 d) ∧
      binaryParse (llsdBinaryHeader ++ 100 :: leBytes8 (toU64 d)) = .ok (.date d)) ∧
    (∀ bs : List Nat, wfStr bs = true →
      to_bytes (.string bs) = llsdBinaryHeader ++ 115 :: (leBytes4 bs.length ++ bs) ∧
      binaryParse (llsdBinaryHeader ++ 115 :: (leBytes4 bs.length ++ bs)) =
        .ok (.string bs)) ∧
    (∀ bs : List Nat, wfStr bs = true →
      to_bytes (.uri bs) = llsdBinaryHeader ++ 108 :: (leBytes4 bs.length ++ bs) ∧
      binaryParse (llsdBinaryHeader ++ 108 :: (leBytes4 bs.length ++ bs)) =
        .ok (.uri bs)) ∧
    (∀ bs : List Nat, wfValue (.binary bs) = true →
      to_bytes (.binary bs) = llsdBinaryHeader ++ 98 :: (leBytes4 bs.length ++ bs) ∧
      binaryParse (llsdBinaryHeader ++ 98 :: (leBytes4 bs.length ++ bs)) =
        .ok (.binary bs)) ∧
    (∀ es, wfValue (.map es) = true →
      to_bytes (.map es) =
        llsdBinaryHeader ++ 123 :: (leBytes4 es.length ++ (genEntries es ++ [125])) ∧
      binaryParse
        (llsdBinaryHeader ++ 123 :: (leBytes4 es.length ++ (genEntries es ++ [125]))) =
        .ok (.map es)) ∧
    (∀ xs, wfValue (.array xs) = true →
      to_bytes (.array xs) =
        llsdBinaryHeader ++ 91 :: (leBytes4 xs.length ++ (genItems xs ++ [93])) ∧
      binaryParse
        (llsdBinaryHeader ++ 91 :: (leBytes4 xs.length ++ (genItems xs ++ [93]))) =
        .ok (.array xs)) := by
  refine ⟨?_, ?_, ?_, ?_, ?_, ?_, ?_, ?_⟩
  · intro n h1 h2
    refine ⟨rfl, ?_⟩
    exact binaryParse_to_bytes (.integer n)
      (by simp only [wfValue, Bool.and_eq_true, decide_eq_true_eq]; exact ⟨h1, h2⟩)
  · intro p h1 h2
    refine ⟨rfl, ?_⟩
    exact binaryParse_to_bytes (.real p)
      (by simp only [wfValue, Bool.and_eq_true, decide_eq_true_eq]
          exact ⟨h1, by simpa using h2⟩)
  · intro d h1 h2
    refine ⟨rfl, ?_⟩
    exact binaryParse_to_bytes (.date d)
      (by simp only [wfValue, Bool.and_eq_true, decide_eq_true_eq]; exact ⟨h1, h2⟩)
  · intro bs h
    exact ⟨rfl, binaryParse_to_bytes (.string bs) h⟩
  · intro bs h
    exact ⟨rfl, binaryParse_to_bytes (.uri bs) h⟩
  · intro bs h
    exact ⟨rfl, binaryParse_to_bytes (.binary bs) h⟩
  · intro es h
    exact ⟨rfl, binaryParse_to_bytes (.map es) h⟩
  · intro xs h
    exact ⟨rfl, binaryParse_to_bytes (.array xs) h⟩

/-- Witness for the amended C3 at concrete inputs. -/
theorem claim_C3_little_endian_witness :
    (to_bytes (.integer 1) = llsdBinaryHeader ++ 105 :: leBytes4 (toU32 1) ∧
      binaryParse (llsdBinaryHeader ++ 105 :: leBytes4 (toU32 1)) = .ok (.integer 1)) ∧
    (to_bytes (.string [104, 105]) =
        llsdBinaryHeader ++ 115 :: (leBytes4 2 ++ [104, 105]) ∧
      binaryParse (llsdBinaryHeader ++ 115 :: (leBytes4 2 ++ [104, 105])) =
        .ok (.string [104, 105])) :=
  ⟨claim_C3_little_endian.1 1 (by decide) (by decide),
   claim_C3_little_endian.2.2.2.1 [104, 105] (by decide)⟩

/-- C5 as stated is false at the one-entry map `{"a": Undefined}`: the
encoder writes no `k` byte before the length-prefixed key. -/
theorem claim_C5_counterexample :
    ¬ to_bytes (.map [([97], .undefined)]) =
        llsdBinaryHeader ++ [123, 1, 0, 0, 0] ++ [107] ++ [1, 0, 0, 0, 97] ++
          [33] ++ [125] ∧
    to_bytes (.map [([97], .undefined)]) =
      llsdBinaryHeader ++ [123, 1, 0, 0, 0] ++ [1, 0, 0, 0, 97] ++ [33] ++ [125] :=
  ⟨by decide, by decide⟩

/-- C5 amended: each Map entry consists of the length-prefixed key then the
recursively encoded value, with NO `k` tag byte, on both encode and decode
(the decoder reads the key directly with `read_variable`). -/
theorem claim_C5_map_entry_framing (k : List Nat) (v : LLSDValue)
    (hk : wfStr k = true) (hv : wfValue v = true) :
    to_bytes (.map [(k, v)]) =
      llsdBinaryHeader ++ 123 :: (leBytes4 1 ++
        (leBytes4 k.length ++ k ++ generate_value v ++ [125])) ∧
    binaryParse
      (llsdBinaryHeader ++ 123 :: (leBytes4 1 ++
        (leBytes4 k.length ++ k ++ generate_value v ++ [125]))) =
      .ok (.map [(k, v)]) := by
  have hwf : wfValue (.map [(k, v)]) = true := by
    simp only [wfValue, wfEntries, keysNodup, Bool.and_eq_true, decide_eq_true_eq,
      List.all_nil, and_true]
    exact ⟨by norm_num, hk, hv⟩
  have hshape : to_bytes (.map [(k, v)]) =
      llsdBinaryHeader ++ 123 :: (leBytes4 1 ++
        (leBytes4 k.length ++ k ++ generate_value v ++ [125])) := by
    simp [to_bytes, generate_value, genEntries]
  refine ⟨hshape, ?_⟩
  rw [← hshape]
  exact binaryParse_to_bytes (.map [(k, v)]) hwf

/-- Witness for the amended C5 at `{"a": Integer 7}`. -/
theorem claim_C5_map_entry_framing_witness :
    to_bytes (.map [([97], .integer 7)]) =
      llsdBinaryHeader ++ 123 :: (leBytes4 1 ++
        (leBytes4 [97].length ++ [97] ++ generate_value (.integer 7) ++ [125])) ∧
    binaryParse
      (llsdBinaryHeader ++ 123 :: (leBytes4 1 ++
        (leBytes4 [97].length ++ [97] ++ generate_value (.integer 7) ++ [125]))) =
      .ok (.map [([97], .integer 7)]) :=
  claim_C5_map_entry_framing [97] (.integer 7) (by decide) (by decide)

/-- Binary decode of a map body whose two entries share a key: the loop
inserts both, and `HashMap::insert` keeps the later value. -/
theorem parse_value_dupmap (f : Nat) (k : List Nat) (v1 v2 : LLSDValue)
    (rest : List Nat) (hk : wfStr k = true) (hv1 : wfValue v1 = true)
    (hv2 : wfValue v2 = true) (hc : cost (.map [(k, v1), (k, v2)]) ≤ f) :
    parse_value f (generate_value (.map [(k, v1), (k, v2)]) ++ rest) =
      .ok (.map [(k, v2)], rest) := by
  cases f with
  | zero => exact absurd (Nat.le_trans (cost_pos _) hc) (by omega)
  | succ f =>
    have hwfE : wfEntries [(k, v1), (k, v2)] = true := by
      simp only [wfEntries, Bool.and_eq_true, and_true]
      exact ⟨⟨hk, hv1⟩, hk, hv2⟩
    have hcE : costEntries [(k, v1), (k, v2)] ≤ f := by
      simp only [cost] at hc
      omega
    have hlen2 : ([(k, v1), (k, v2)] : List (List Nat × LLSDValue)).length < 2 ^ 32 := by
      norm_num
    rw [generate_value, List.cons_append, List.append_assoc, parse_value]
    simp only [readU8, okBind]
    rw [readU32_le _ _ hlen2]
    simp only [okBind, List.append_assoc, List.singleton_append]
    rw [parseEntries_gen f [(k, v1), (k, v2)] [] (125 :: rest) hwfE hcE]
    simp only [okBind, readU8]
    simp [foldIns, insertA]

/-- Event-level decode of one `integer` element: raw text, then the matching
end tag, converted by `parse::<i32>`. -/
theorem parseXPrim_integer (f : Nat) (t : List Nat) (n : Int)
    (attrs : List (List Nat × List Nat)) (rest : List XEvent)
    (hU : xmlUnescape t = .ok t) (hP : parseI32Text t = .ok n) :
    parseXPrim (f + 2) (strBytes "integer") attrs
      (.textE t :: .endE (strBytes "integer") :: rest) [] = .ok (.integer n, rest) := by
  rw [parseXPrim]
  rw [hU]
  simp only [okBind, List.nil_append]
  rw [parseXPrim, if_pos rfl]
  simp only [joinSpace]
  rw [if_neg (by decide), if_neg (by decide)]
  simp only [if_true]
  rw [hP]
  simp only [okBind]

/-- Event-level decode of one map entry `K -> integer N`: key text, `</key>`,
then exactly one `integer` element. -/
theorem parseXMapEntry_integer (f : Nat) (kc t : List Nat) (n : Int)
    (rest : List XEvent)
    (hkU : xmlUnescape kc = .ok kc) (hkT : trimChars kc = kc)
    (hU : xmlUnescape t = .ok t) (hP : parseI32Text t = .ok n) :
    parseXMapEntry (f + 5) (.textE kc :: .endE (strBytes "key") ::
        .startE (strBytes "integer") [] :: .textE t ::
        .endE (strBytes "integer") :: rest) [] =
      .ok ((utf8encode kc, .integer n), rest) := by
  rw [parseXMapEntry]
  rw [hkU]
  simp only [okBind, List.nil_append]
  rw [parseXMapEntry, if_pos rfl]
  simp only [joinSpace]
  rw [hkT]
  rw [parseXValue, if_pos (by decide)]
  rw [parseXPrim_integer f t n [] rest hU hP]
  simp only [okBind]

/-- One `<key>..</key><integer>..</integer>` pair consumed by the `parse_map`
loop: the entry is read and inserted, and the loop continues. -/
theorem parseXMap_entry_step (f : Nat) (kc t : List Nat) (n : Int)
    (rest : List XEvent) (m : List (List Nat × LLSDValue))
    (hkU : xmlUnescape kc = .ok kc) (hkT : trimChars kc = kc)
    (hU : xmlUnescape t = .ok t) (hP : parseI32Text t = .ok n) :
    parseXMap (f + 7) (.startE (strBytes "key") [] :: .textE kc ::
        .endE (strBytes "key") :: .startE (strBytes "integer") [] :: .textE t ::
        .endE (strBytes "integer") :: rest) m =
      parseXMap (f + 6) rest (insertA m (utf8encode kc) (.integer n)) := by
  rw [parseXMap, if_pos rfl]
  rw [show f + 6 = f + 1 + 5 by omega]
  rw [parseXMapEntry_integer (f + 1) kc t n rest hkU hkT hU hP]
  simp only [okBind]

/-- C8: decoding a map, text or binary, in which the same key appears more
than once succeeds without error and yields a Map whose value for that key
is the last one written in input order.  The binary half decodes a full
binary message whose map body lists the key twice; the text half decodes the
event stream of `<llsd><map><key>K</key><integer>A</integer><key>K</key>
<integer>B</integer></map></llsd>` for any key text and any two integer
literals. -/
theorem claim_C8_duplicate_key_last_wins :
    (∀ (k : List Nat) (v1 v2 : LLSDValue),
      wfStr k = true → wfValue v1 = true → wfValue v2 = true →
      binaryParse (llsdBinaryHeader ++ generate_value (.map [(k, v1), (k, v2)])) =
        .ok (.map [(k, v2)])) ∧
    (∀ (kc t1 t2 : List Nat) (n1 n2 : Int),
      xmlUnescape kc = .ok kc → trimChars kc = kc →
      xmlUnescape t1 = .ok t1 → xmlUnescape t2 = .ok t2 →
      parseI32Text t1 = .ok n1 → parseI32Text t2 = .ok n2 →
      xmlParseEvents [
        .startE (strBytes "llsd") [], .startE (strBytes "map") [],
        .startE (strBytes "key") [], .textE kc, .endE (strBytes "key"),
        .startE (strBytes "integer") [], .textE t1, .endE (strBytes "integer"),
        .startE (strBytes "key") [], .textE kc, .endE (strBytes "key"),
        .startE (strBytes "integer") [], .textE t2, .endE (strBytes "integer"),
        .endE (strBytes "map"), .endE (strBytes "llsd")] =
        .ok (.map [(utf8encode kc, .integer n2)])) := by
  constructor
  · intro k v1 v2 hk hv1 hv2
    rw [binaryParse]
    rw [if_pos (by simp [llsdBinaryHeader_length])]
    rw [if_pos (by rw [List.take_left])]
    rw [List.drop_left]
    have hc : cost (.map [(k, v1), (k, v2)]) ≤
        2 * (llsdBinaryHeader ++ generate_value (.map [(k, v1), (k, v2)])).length + 4 := by
      have := cost_le_gen (.map [(k, v1), (k, v2)])
      simp only [List.length_append]
      omega
    have h := parse_value_dupmap _ k v1 v2 [] hk hv1 hv2 hc
    rw [List.append_nil] at h
    rw [h]
  · intro kc t1 t2 n1 n2 hkU hkT h1U h2U h1P h2P
    show xmlOuter 36 _ none = _
    rw [xmlOuter, if_pos rfl]
    simp only [Option.isSome_none, Bool.false_eq_true, if_false]
    rw [parseXValue, if_neg (by decide), if_pos rfl]
    rw [show (34 : Nat) = 27 + 7 from rfl]
    rw [parseXMap_entry_step 27 kc t1 n1 _ _ hkU hkT h1U h1P]
    rw [show (27 + 6 : Nat) = 26 + 7 from rfl]
    rw [parseXMap_entry_step 26 kc t2 n2 _ _ hkU hkT h2U h2P]
    rw [show (26 + 6 : Nat) = 31 + 1 from rfl]
    rw [parseXMap, if_pos rfl]
    simp only [okBind]
    rw [xmlOuter]
    rw [xmlOuter]
    simp [insertA]

/-- Witness for C8: key `"a"` mapped to 1 then 2, in both wire forms. -/
theorem claim_C8_duplicate_key_last_wins_witness :
    binaryParse
      (llsdBinaryHeader ++ generate_value (.map [([97], .integer 1), ([97], .integer 2)])) =
      .ok (.map [([97], .integer 2)]) ∧
    xmlParseEvents [
      .startE (strBytes "llsd") [], .startE (strBytes "map") [],
      .startE (strBytes "key") [], .textE (strBytes "a"), .endE (strBytes "key"),
      .startE (strBytes "integer") [], .textE (strBytes "1"), .endE (strBytes "integer"),
      .startE (strBytes "key") [], .textE (strBytes "a"), .endE (strBytes "key"),
      .startE (strBytes "integer") [], .textE (strBytes "2"), .endE (strBytes "integer"),
      .endE (strBytes "map"), .endE (strBytes "llsd")] =
      .ok (.map [(utf8encode (strBytes "a"), .integer 2)]) :=
  ⟨claim_C8_duplicate_key_last_wins.1 [97] (.integer 1) (.integer 2)
      (by decide) (by decide) (by decide),
   claim_C8_duplicate_key_last_wins.2 (strBytes "a") (strBytes "1") (strBytes "2")
      1 2 rfl rfl rfl rfl rfl rfl⟩

/-- Results routed from the binary decoder are never the dispatcher's panic
or format-not-recognized outcomes. -/
theorem exceptMapE_binE_ne (r : Except BErr LLSDValue) :
    exceptMapE DErr.binE r ≠ .error .panicked ∧
    ∀ s, exceptMapE DErr.binE r ≠ .error (.notRecognized s) := by
  cases r <;> simp [exceptMapE]

/-- Results routed from the XML decoder are never the dispatcher's panic or
format-not-recognized outcomes. -/
theorem exceptMapE_xmlE_ne (r : Except XErr LLSDValue) :
    exceptMapE DErr.xmlE r ≠ .error .panicked ∧
    ∀ s, exceptMapE DErr.xmlE r ≠ .error (.notRecognized s) := by
  cases r <;> simp [exceptMapE]

theorem parseTextPhase_no_panic (msg : List Nat) :
    parseTextPhase msg ≠ .error .panicked := by
  rw [parseTextPhase]
  split
  · simp
  · split
    · exact (exceptMapE_xmlE_ne _).1
    · simp

theorem parseTextPhase_snippet (msg s : List Nat)
    (h : parseTextPhase msg = .error (.notRecognized s)) :
    s.length ≤ 60 ∧ utf8encode s <+: msg := by
  rw [parseTextPhase] at h
  split at h
  · simp at h
  · rename_i cs hcs
    split at h
    · exact absurd h ((exceptMapE_xmlE_ne _).2 s)
    · simp only [Except.error.injEq, DErr.notRecognized.injEq] at h
      subst h
      constructor
      · simp only [List.length_take]
        omega
      · exact utf8decode_take_isPrefix msg cs hcs 60

/-- C9: the dispatcher never panics on any input byte buffer, and when it
exhausts all detection strategies the format-not-recognized error's snippet
holds at most 60 characters of the input, and re-encoding the snippet gives
a prefix of the input bytes — i.e. the truncation lies on a codepoint
boundary, never mid-codepoint. -/
theorem claim_C9_no_panic_and_snippet (msg : List Nat) :
    LLSDValue.parse msg ≠ .error .panicked ∧
    (∀ s, LLSDValue.parse msg = .error (.notRecognized s) →
      s.length ≤ 60 ∧ utf8encode s <+: msg) := by
  rw [LLSDValue.parse]
  split
  · exact ⟨(exceptMapE_binE_ne _).1, fun s h => absurd h ((exceptMapE_binE_ne _).2 s)⟩
  · split
    · rename_i hlen
      split
      · split
        · exact ⟨(exceptMapE_binE_ne _).1,
            fun s h => absurd h ((exceptMapE_binE_ne _).2 s)⟩
        · exact ⟨parseTextPhase_no_panic msg, fun s h => parseTextPhase_snippet msg s h⟩
      · rename_i hno
        exfalso
        cases msg with
        | nil => simp at hlen
        | cons a t =>
          cases hl : (a :: t).getLast? with
          | none => simp [List.getLast?_eq_none_iff] at hl
          | some bl => exact hno a bl rfl hl
    · exact ⟨parseTextPhase_no_panic msg, fun s h => parseTextPhase_snippet msg s h⟩

/-- The unrecognized 69-byte buffer of the witness: 65 `a`s then one
four-byte character. -/
def c9msg : List Nat :=
  strBytes "aaaaaaaaaaaaaaaaaaaaaaaaaaaaaaaaaaaaaaaaaaaaaaaaaaaaaaaaaaaaaaaaa" ++
    [240, 159, 152, 128]

/-- Witness for C9: the snippet is the first 60 characters and its bytes are
a prefix of the buffer. -/
theorem claim_C9_no_panic_and_snippet_witness :
    LLSDValue.parse c9msg ≠ .error .panicked ∧
    (List.replicate 60 97).length ≤ 60 ∧
    utf8encode (List.replicate 60 97) <+: c9msg :=
  ⟨(claim_C9_no_panic_and_snippet c9msg).1,
   (claim_C9_no_panic_and_snippet c9msg).2 (List.replicate 60 97) rfl⟩

/-- C10: a buffer of length at least 2 that does not begin with the binary
sentinel, whose first byte equals its last byte and is `{` or `[`, always
makes `LLSDValue::parse` return an error: the headerless branch hands the
whole buffer to `binary::parse`, which rejects anything lacking the
sentinel, so headerless binary decode can never succeed. -/
theorem claim_C10_headerless_always_errors (msg : List Nat) (b : Nat)
    (h1 : 2 ≤ msg.length) (h2 : msg.head? = some b) (h3 : msg.getLast? = some b)
    (h4 : b = 123 ∨ b = 91)
    (h5 : msg.take llsdBinarySentinel.length ≠ llsdBinarySentinel) :
    ∃ e, LLSDValue.parse msg = .error (.binE e) := by
  have hb : ∃ e, binaryParse msg = .error e := by
    rw [binaryParse]
    by_cases hlen : llsdBinaryHeader.length ≤ msg.length
    · rw [if_pos hlen]
      have hne : msg.take llsdBinaryHeader.length ≠ llsdBinaryHeader := h5
      rw [if_neg hne]
      exact ⟨_, rfl⟩
    · rw [if_neg hlen]
      exact ⟨_, rfl⟩
  obtain ⟨e, he⟩ := hb
  refine ⟨e, ?_⟩
  rw [LLSDValue.parse]
  rw [if_neg fun hand => h5 hand.2]
  rw [if_pos (by omega : 1 < msg.length)]
  rw [h2, h3]
  dsimp only
  split
  · rw [he]
    rfl
  · rename_i hcond
    exact absurd ⟨rfl, h4⟩ hcond

/-- Witness for C10 at the two-byte buffer `{{`. -/
theorem claim_C10_headerless_always_errors_witness :
    ∃ e, LLSDValue.parse [123, 123] = .error (.binE e) :=
  claim_C10_headerless_always_errors [123, 123] 123 (by decide) rfl rfl
    (Or.inl rfl) (by decide)

end LLSD
